import Mathlib

/-!
hoshingak: the `-finstrument-functions` trace writer (`src/data/injection/injection.c`)

A shallow embedding of the four entry points of `injection.c`
(`main_constructor`, `main_destructor`, `__cyg_profile_func_enter`,
`__cyg_profile_func_exit`) and of the static helper `fprint_dlinfo`.

Conventions of the embedding.

* A pointer is a natural number below `2 ^ 64`; `NULL` is `0`.
* A stdio stream is the sequence of characters written to it so far; a write
  to an open stream succeeds, and buffering is not observed.
* The host facilities the code calls are explicit inputs: the dynamic loader
  (`dladdr`) is a lookup function, the clock reading of `clock_gettime` is the
  `timespec` it stores, and `fopen` is decided by a file-system predicate.
* `exit` runs the function that `injection.h` registers with the `destructor`
  attribute before the process ends; a C call whose behaviour is undefined
  (`fclose` or `fprintf` on a `NULL` stream) has no result.
* The conversions of `fprintf` used by the source (`%p`, `%c`, `%ld`) follow
  the GNU C library, which the source targets (`#define __USE_GNU`,
  `<dlfcn.h>`).
-/

namespace Injection

/-! ## Data model -/

/-- The `Dl_info` of `<dlfcn.h>`.  The source reads only `dli_fbase`; the other
three members (`dli_fname`, `dli_sname`, `dli_saddr`) are never inspected and
are kept only so that the zero initialiser `{ 0 }` has its C shape. -/
structure Dl_info where
  dli_fname : Nat
  dli_fbase : Nat
  dli_sname : Nat
  dli_saddr : Nat
  deriving DecidableEq, Repr

/-- The `struct timespec` of `<time.h>`: whole seconds and the nanoseconds
within the second, both of C type `long`. -/
structure timespec where
  tv_sec : Int
  tv_nsec : Int
  deriving DecidableEq, Repr

/-- A stdio output stream: the characters written to it so far. -/
structure FILE where
  data : List Char
  deriving DecidableEq, Repr

/-- The process state the translation unit touches: the file-scope variable
`finstrument_fp` (`none` is `NULL`) and the standard error stream. -/
structure Proc where
  finstrument_fp : Option FILE
  stderr : List Char
  deriving DecidableEq, Repr

/-- The dynamic loader as seen through `dladdr`: for an address, the load base
of the object that contains it, or `none` when no loaded object does. -/
abbrev Loader := Nat → Option Nat

/-- How a call into the translation unit ends: it returns to its caller, it
ends the process through a completed `exit` with a status, or it reaches a C
call whose behaviour is undefined (`st` is the state at that call). -/
inductive Outcome where
  | returned (st : Proc)
  | exited (status : Nat) (st : Proc)
  | undefined (st : Proc)
  deriving DecidableEq, Repr

/-- The arguments of a variadic `fprintf` call that the source passes. -/
inductive Arg where
  | ptr (v : Nat)
  | chr (c : Char)
  | long (v : Int)
  deriving DecidableEq, Repr

/-! ## Host library: `<stdlib.h>`, `<dlfcn.h>`, `<stdio.h>` -/

/-- The `EXIT_FAILURE` of `<stdlib.h>`. -/
def EXIT_FAILURE : Nat := 1

/-- Width of a pointer and of `ptrdiff_t`. -/
def PTR_BITS : Nat := 64

/-- The GNU C subtraction of two `void *` values: the byte difference as a
`ptrdiff_t`, read back as the 64-bit pattern that `%p` receives. -/
def ptr_sub (p q : Nat) : Nat :=
  Int.toNat (((p : Int) - (q : Int)) % (2 ^ PTR_BITS : Int))

/-- The zero initialiser `Dl_info info = { 0 };`. -/
def Dl_info.zero : Dl_info :=
  { dli_fname := 0, dli_fbase := 0, dli_sname := 0, dli_saddr := 0 }

/-- The call `dladdr(addr, &info)`: on success the status is non-zero and
`dli_fbase` holds the base of the containing object; on failure the status is
`0` and `info` is left as it was. -/
def dladdr (ld : Loader) (addr : Nat) (info : Dl_info) : Nat × Dl_info :=
  match ld addr with
  | some base => (1, { info with dli_fbase := base })
  | none => (0, info)

/-- The digit table `"0123456789abcdef"` of the C library's number printer. -/
def digitChar (d : Nat) : Char :=
  if d < 10 then Char.ofNat (48 + d) else Char.ofNat (87 + d)

/-- The digit loop of the C library's number printer
(`do *--p = digits[v % base]; while ((v /= base) != 0);`), with the loop
bounded by `fuel` iterations. -/
def itoa_loop (base : Nat) : Nat → Nat → List Char → List Char
  | 0, _, acc => acc
  | fuel + 1, v, acc =>
    if v / base = 0 then digitChar (v % base) :: acc
    else itoa_loop base fuel (v / base) (digitChar (v % base) :: acc)

/-- The digits of `v` in `base`, most significant first; `v + 1` iterations
always suffice. -/
def itoa (base v : Nat) : List Char :=
  itoa_loop base (v + 1) v []

/-- The `%p` conversion: `(nil)` for a null pointer, otherwise `0x` followed
by the lowercase hexadecimal digits. -/
def printf_p (v : Nat) : List Char :=
  if v = 0 then "(nil)".toList else '0' :: 'x' :: itoa 16 v

/-- The `%ld` conversion: signed decimal. -/
def printf_ld (v : Int) : List Char :=
  if v < 0 then '-' :: itoa 10 (-v).toNat else itoa 10 v.toNat

/-- The text produced by `fprintf` for a format and its arguments, for the
conversions the source uses: `%p`, `%c`, `%ld`; every other character of the
format is copied. -/
def vformat : List Char → List Arg → List Char
  | [], _ => []
  | '%' :: 'p' :: rest, Arg.ptr v :: args => printf_p v ++ vformat rest args
  | '%' :: 'c' :: rest, Arg.chr c :: args => c :: vformat rest args
  | '%' :: 'l' :: 'd' :: rest, Arg.long v :: args => printf_ld v ++ vformat rest args
  | c :: rest, args => c :: vformat rest args

/-- The call `fprintf(fp, fmt, ...)` on an open stream: the formatted text is
appended to the stream. -/
def fprintf (fp : FILE) (fmt : String) (args : List Arg) : FILE :=
  { fp with data := fp.data ++ vformat fmt.toList args }

/-- The call `fopen(path, "w")`: when the file system lets `path` be created
for writing the result is a fresh, empty stream, otherwise `NULL`. -/
def fopen (writable : String → Bool) (path : String) : Option FILE :=
  if writable path then some { data := [] } else none

/-! ## `injection.c` -/

/-- The static helper `fprint_dlinfo(this_fn, call_site, flag)`.  The result
is `none` when `finstrument_fp` is `NULL`, where the C call is undefined. -/
def fprint_dlinfo (ld : Loader) (clock : timespec) (st : Proc)
    (this_fn call_site : Nat) (flag : Char) : Option Proc :=
  let info := Dl_info.zero
  let info := (dladdr ld this_fn info).2
  let spec := clock
  match st.finstrument_fp with
  | none => none
  | some fp =>
    some { st with
      finstrument_fp := some (fprintf fp "%p %p %c %ld\n"
        [Arg.ptr (ptr_sub this_fn info.dli_fbase),
         Arg.ptr (ptr_sub call_site info.dli_fbase),
         Arg.chr flag, Arg.long spec.tv_nsec]) }

/-- The destructor `main_destructor`: `fclose(finstrument_fp)` releases the
stream; the result is `none` when the pointer is `NULL`, where the C call is
undefined. -/
def main_destructor (st : Proc) : Option Proc :=
  match st.finstrument_fp with
  | none => none
  | some _ => some { st with finstrument_fp := none }

/-- The call `exit(status)` of `<stdlib.h>` in this program: before the process
ends, `exit` runs the functions registered for process termination, and
`injection.h` registers `main_destructor` with the `destructor` attribute.
When the destructor reaches an undefined call, the `exit` never completes. -/
def exit (status : Nat) (st : Proc) : Outcome :=
  match main_destructor st with
  | some st1 => Outcome.exited status st1
  | none => Outcome.undefined st

/-- The constructor `main_constructor`. -/
def main_constructor (writable : String → Bool) (st : Proc) : Outcome :=
  let st := { st with finstrument_fp := fopen writable "finstrument.txt" }
  if st.finstrument_fp = none then
    let st := { st with
      stderr := st.stderr ++ vformat "Fail to create finstrument.txt.\n".toList [] }
    exit EXIT_FAILURE st
  else
    Outcome.returned st

/-- The hook `__cyg_profile_func_enter`. -/
def __cyg_profile_func_enter (ld : Loader) (clock : timespec) (st : Proc)
    (this_fn call_site : Nat) : Option Proc :=
  fprint_dlinfo ld clock st this_fn call_site 'E'

/-- The hook `__cyg_profile_func_exit`. -/
def __cyg_profile_func_exit (ld : Loader) (clock : timespec) (st : Proc)
    (this_fn call_site : Nat) : Option Proc :=
  fprint_dlinfo ld clock st this_fn call_site 'X'

/-! ## Single-threaded call sequences -/

/-- Which of the two hooks the instrumented program calls. -/
inductive Hook where
  | enter
  | exit
  deriving DecidableEq, Repr

/-- One hook invocation: the hook, its two raw addresses, and the reading
that `clock_gettime` stores during the call. -/
structure Call where
  hook : Hook
  this_fn : Nat
  call_site : Nat
  clock : timespec
  deriving DecidableEq, Repr

/-- Run one hook invocation. -/
def runHook (ld : Loader) (st : Proc) (c : Call) : Option Proc :=
  match c.hook with
  | Hook.enter => __cyg_profile_func_enter ld c.clock st c.this_fn c.call_site
  | Hook.exit => __cyg_profile_func_exit ld c.clock st c.this_fn c.call_site

/-- Run a sequence of hook invocations from one thread, in call order. -/
def runCalls (ld : Loader) : Proc → List Call → Option Proc
  | st, [] => some st
  | st, c :: cs => (runHook ld st c).bind (fun st1 => runCalls ld st1 cs)

/-- The contents of the trace store of a process state (empty when there is
no open stream). -/
def storeOf (st : Proc) : List Char :=
  match st.finstrument_fp with
  | some fp => fp.data
  | none => []

/-- An active writer whose store is still empty. -/
def freshActive : Proc :=
  { finstrument_fp := some { data := [] }, stderr := [] }

/-- The text one hook invocation writes, observed by running the hook on an
empty store. -/
def lineOf (ld : Loader) (c : Call) : List Char :=
  match runHook ld freshActive c with
  | some st => storeOf st
  | none => []

/-! ## The documented trace-file layout (spec §6), as a reader of it -/

/-- Direction of a trace event (spec §3). -/
inductive Direction where
  | Enter
  | Exit
  deriving DecidableEq, Repr

/-- The trace event of spec §3. -/
structure TraceEvent where
  callee_offset : Nat
  call_site_offset : Nat
  direction : Direction
  timestamp : Int
  deriving DecidableEq, Repr

/-- Split a text at every occurrence of a separator. -/
def splitOn (sep : Char) : List Char → List (List Char)
  | [] => [[]]
  | c :: cs =>
    if c = sep then [] :: splitOn sep cs
    else
      match splitOn sep cs with
      | [] => [[c]]
      | f :: fs => (c :: f) :: fs

/-- The space-separated fields of a line. -/
def fieldsOf (line : List Char) : List (List Char) :=
  splitOn ' ' line

/-- Value of one digit character (decimal digits and the letters `a`-`f`,
`A`-`F`). -/
def digitVal (c : Char) : Option Nat :=
  if 48 ≤ c.toNat ∧ c.toNat ≤ 57 then some (c.toNat - 48)
  else if 97 ≤ c.toNat ∧ c.toNat ≤ 102 then some (c.toNat - 87)
  else if 65 ≤ c.toNat ∧ c.toNat ≤ 70 then some (c.toNat - 55)
  else none

/-- Read digits in `base`, most significant first, onto an accumulator. -/
def parseDigits (base : Nat) : List Char → Nat → Option Nat
  | [], acc => some acc
  | c :: cs, acc =>
    match digitVal c with
    | some d => if d < base then parseDigits base cs (acc * base + d) else none
    | none => none

/-- Read a non-empty digit string in `base`. -/
def parseNat (base : Nat) (s : List Char) : Option Nat :=
  if s = [] then none else parseDigits base s 0

/-- Read a `<hex>` field: hexadecimal digits, with or without a leading
`0x`. -/
def parseHex (s : List Char) : Option Nat :=
  match s with
  | '0' :: 'x' :: rest => parseNat 16 rest
  | _ => parseNat 16 s

/-- Read a `<decimal>` field: decimal digits with an optional minus sign. -/
def parseDec (s : List Char) : Option Int :=
  match s with
  | '-' :: rest => (parseNat 10 rest).map (fun n => -(n : Int))
  | _ => (parseNat 10 s).map (fun n => (n : Int))

/-- Read a direction field: `E` or `X`. -/
def parseDirection (s : List Char) : Option Direction :=
  if s = ['E'] then some Direction.Enter
  else if s = ['X'] then some Direction.Exit
  else none

/-- Read one line of the layout `<hex> <hex> <E|X> <decimal>` followed by a
newline. -/
def parseLine (line : List Char) : Option TraceEvent :=
  if line.getLast? = some '\n' then
    match fieldsOf line.dropLast with
    | [f1, f2, f3, f4] =>
      match parseHex f1, parseHex f2, parseDirection f3, parseDec f4 with
      | some a, some b, some d, some t =>
        some { callee_offset := a, call_site_offset := b, direction := d, timestamp := t }
      | _, _, _, _ => none
    | _ => none
  else none

/-- The direction a hook records. -/
def Hook.direction : Hook → Direction
  | Hook.enter => Direction.Enter
  | Hook.exit => Direction.Exit

/-- The nanosecond value of a clock instant: whole seconds and nanoseconds
combined. -/
def timespec.toNanos (t : timespec) : Int :=
  t.tv_sec * 1000000000 + t.tv_nsec

/-! ## Concrete inputs used by the examples below -/

/-- A module map with the executable at `0x400000` and a shared object at
`0x7f0000000000`, each one megabyte long. -/
def sampleLoader : Loader := fun a =>
  if 0x400000 ≤ a ∧ a < 0x500000 then some 0x400000
  else if 0x7f0000000000 ≤ a ∧ a < 0x7f0000100000 then some 0x7f0000000000
  else none

/-! ## Vocabulary of the lemmas -/

/-- A character of the digit table. -/
def IsDigitChar (c : Char) : Prop := ∃ d, d < 16 ∧ c = digitChar d

/-- The text of a record line as a function of the four `fprintf` arguments: two pointer fields, the flag, the decimal
field, and the newline. -/
def recordText (a b : Nat) (flag : Char) (t : Int) : List Char :=
  printf_p a ++ ' ' :: (printf_p b ++ ' ' :: flag :: ' ' :: (printf_ld t ++ ['\n']))

/-! ## Auxiliary lemmas: pointer arithmetic and formatting -/

theorem ptr_sub_add (b k : Nat) (hk : k < 2 ^ 64) : ptr_sub (b + k) b = k := by
  unfold ptr_sub PTR_BITS
  have h1 : ((b + k : Nat) : Int) - (b : Int) = (k : Int) := by push_cast; ring
  rw [h1]
  have h2 : (k : Int) % (2 ^ 64 : Int) = (k : Int) :=
    Int.emod_eq_of_lt (by omega) (by exact_mod_cast hk)
  rw [h2]
  simp

theorem ptr_sub_zero (p : Nat) (hp : p < 2 ^ 64) : ptr_sub p 0 = p := by
  have h := ptr_sub_add 0 p hp
  simpa using h

theorem vformat_record (a b : Nat) (c : Char) (t : Int) :
    vformat "%p %p %c %ld\n".toList [Arg.ptr a, Arg.ptr b, Arg.chr c, Arg.long t]
      = printf_p a ++ ' ' :: (printf_p b ++ ' ' :: c :: ' ' :: (printf_ld t ++ ['\n'])) := by
  rfl

theorem dladdr_some (ld : Loader) (a b : Nat) (info : Dl_info) (h : ld a = some b) :
    (dladdr ld a info).2.dli_fbase = b := by
  simp [dladdr, h]

theorem dladdr_none (ld : Loader) (a : Nat) (info : Dl_info) (h : ld a = none) :
    dladdr ld a info = (0, info) := by
  simp [dladdr, h]

/-- What `fprint_dlinfo` does on an open stream, written out. -/
theorem fprint_dlinfo_active (ld : Loader) (clock : timespec) (st : Proc) (fp : FILE)
    (this_fn call_site : Nat) (flag : Char) (h : st.finstrument_fp = some fp) :
    fprint_dlinfo ld clock st this_fn call_site flag
      = some { finstrument_fp := some { data := fp.data ++
                (printf_p (ptr_sub this_fn (dladdr ld this_fn Dl_info.zero).2.dli_fbase)
                  ++ ' ' :: (printf_p (ptr_sub call_site (dladdr ld this_fn Dl_info.zero).2.dli_fbase)
                  ++ ' ' :: flag :: ' ' :: (printf_ld clock.tv_nsec ++ ['\n']))) },
               stderr := st.stderr } := by
  simp only [fprint_dlinfo, h, fprintf, vformat_record]

/-! ## Auxiliary lemmas: digits -/

theorem digitVal_digitChar (d : Nat) (hd : d < 16) : digitVal (digitChar d) = some d := by
  interval_cases d <;> decide

theorem digitChar_ne_space (d : Nat) (hd : d < 16) : digitChar d ≠ ' ' := by
  interval_cases d <;> decide

theorem digitChar_ne_newline (d : Nat) (hd : d < 16) : digitChar d ≠ '\n' := by
  interval_cases d <;> decide

theorem digitChar_ne_minus (d : Nat) (hd : d < 16) : digitChar d ≠ '-' := by
  interval_cases d <;> decide

theorem itoa_loop_append (base : Nat) (fuel v : Nat) (acc : List Char) :
    itoa_loop base fuel v acc = itoa_loop base fuel v [] ++ acc := by
  induction fuel generalizing v acc with
  | zero => simp [itoa_loop]
  | succ n ih =>
    unfold itoa_loop
    by_cases h : v / base = 0
    · simp [h]
    · simp only [h, if_false]
      rw [ih (v / base) (digitChar (v % base) :: acc), ih (v / base) [digitChar (v % base)]]
      simp

theorem itoa_loop_chars (base : Nat) (hb0 : 0 < base) (hb : base ≤ 16) (fuel v : Nat)
    (acc : List Char) :
    ∀ c ∈ itoa_loop base fuel v acc, IsDigitChar c ∨ c ∈ acc := by
  induction fuel generalizing v acc with
  | zero => intro c hc; right; simpa [itoa_loop] using hc
  | succ n ih =>
    intro c hc
    have hd : v % base < 16 := lt_of_lt_of_le (Nat.mod_lt v hb0) hb
    unfold itoa_loop at hc
    by_cases h : v / base = 0
    · simp only [h, if_true, List.mem_cons] at hc
      rcases hc with hc | hc
      · left; exact ⟨v % base, hd, hc⟩
      · right; exact hc
    · simp only [h, if_false] at hc
      rcases ih (v / base) _ c hc with h1 | h1
      · left; exact h1
      · rcases List.mem_cons.mp h1 with h2 | h2
        · left; exact ⟨v % base, hd, h2⟩
        · right; exact h2

theorem itoa_chars (base : Nat) (hb0 : 0 < base) (hb : base ≤ 16) (v : Nat) :
    ∀ c ∈ itoa base v, IsDigitChar c := by
  intro c hc
  rcases itoa_loop_chars base hb0 hb (v + 1) v [] c hc with h | h
  · exact h
  · simp at h

theorem itoa_loop_ne_nil (base : Nat) (fuel v : Nat) :
    itoa_loop base (fuel + 1) v [] ≠ [] := by
  unfold itoa_loop
  by_cases h : v / base = 0
  · simp [h]
  · simp only [h, if_false]
    rw [itoa_loop_append]
    simp

theorem itoa_ne_nil (base v : Nat) : itoa base v ≠ [] :=
  itoa_loop_ne_nil base v v

theorem parseDigits_append (base : Nat) (xs ys : List Char) (acc : Nat) :
    parseDigits base (xs ++ ys) acc
      = (parseDigits base xs acc).bind (fun r => parseDigits base ys r) := by
  induction xs generalizing acc with
  | nil => simp [parseDigits]
  | cons c cs ih =>
    simp only [List.cons_append, parseDigits]
    cases hdv : digitVal c with
    | none => simp
    | some d =>
      by_cases hlt : d < base
      · simp [hlt, ih]
      · simp [hlt]

/-- Reading back the digits the printer produced gives the number printed. -/
theorem parseDigits_itoa_loop (base : Nat) (hb2 : 2 ≤ base) (hb : base ≤ 16) (fuel v : Nat)
    (hv : v < fuel) : parseDigits base (itoa_loop base fuel v []) 0 = some v := by
  induction fuel generalizing v with
  | zero => omega
  | succ n ih =>
    have hd : v % base < base := Nat.mod_lt v (by omega)
    have hd16 : v % base < 16 := lt_of_lt_of_le hd hb
    unfold itoa_loop
    by_cases h : v / base = 0
    · have hvb : v < base := (Nat.div_eq_zero_iff (by omega)).mp h
      have hv16 : v < 16 := lt_of_lt_of_le hvb hb
      rw [if_pos h, Nat.mod_eq_of_lt hvb]
      simp only [parseDigits, digitVal_digitChar _ hv16, hvb, if_true]
      simp
    · simp only [h, if_false]
      rw [itoa_loop_append, parseDigits_append]
      have hq : v / base < n := by
        have h1 : v / base < v := Nat.div_lt_self (by
          rcases Nat.eq_zero_or_pos v with h0 | h0
          · subst h0; simp at h
          · exact h0) (by omega)
        omega
      rw [ih (v / base) hq]
      simp only [Option.some_bind, parseDigits, digitVal_digitChar _ hd16, hd, if_true]
      congr 1
      exact Nat.div_add_mod' v base

theorem parseNat_itoa (base : Nat) (hb2 : 2 ≤ base) (hb : base ≤ 16) (v : Nat) :
    parseNat base (itoa base v) = some v := by
  unfold parseNat
  rw [if_neg (itoa_ne_nil base v)]
  exact parseDigits_itoa_loop base hb2 hb (v + 1) v (by omega)

theorem parseHex_printf_p (v : Nat) (hv : v ≠ 0) : parseHex (printf_p v) = some v := by
  unfold printf_p
  rw [if_neg hv]
  show parseNat 16 (itoa 16 v) = some v
  exact parseNat_itoa 16 (by omega) (by omega) v

theorem parseDec_printf_ld (t : Int) : parseDec (printf_ld t) = some t := by
  unfold printf_ld
  by_cases ht : t < 0
  · rw [if_pos ht]
    show (parseNat 10 (itoa 10 (-t).toNat)).map (fun n => -(n : Int)) = some t
    rw [parseNat_itoa 10 (by omega) (by omega)]
    show some (-(((-t).toNat : Nat) : Int)) = some t
    congr 1
    omega
  · rw [if_neg ht]
    have hne := itoa_ne_nil 10 t.toNat
    have hch := itoa_chars 10 (by omega) (by omega) t.toNat
    have hp := parseNat_itoa 10 (by omega) (by omega) t.toNat
    cases hs : itoa 10 t.toNat with
    | nil => exact absurd hs hne
    | cons c cs =>
      rw [hs] at hch hp
      have hc : c ≠ '-' := by
        obtain ⟨d, hd, rfl⟩ := hch c (by simp)
        exact digitChar_ne_minus d hd
      unfold parseDec
      split
      · rename_i rest heq
        simp only [List.cons.injEq] at heq
        exact absurd heq.1 hc
      · rw [hp]
        show some ((t.toNat : Nat) : Int) = some t
        congr 1
        omega

/-! ## Auxiliary lemmas: fields of a line -/

theorem splitOn_no_sep (sep : Char) (xs : List Char) (h : sep ∉ xs) :
    splitOn sep xs = [xs] := by
  induction xs with
  | nil => rfl
  | cons c cs ih =>
    have hc : c ≠ sep := fun e => h (by simp [e])
    have hcs : sep ∉ cs := fun e => h (List.mem_cons_of_mem _ e)
    simp [splitOn, hc, ih hcs]

theorem splitOn_append_sep (sep : Char) (xs ys : List Char) (h : sep ∉ xs) :
    splitOn sep (xs ++ sep :: ys) = xs :: splitOn sep ys := by
  induction xs with
  | nil => simp [splitOn]
  | cons c cs ih =>
    have hc : c ≠ sep := fun e => h (by simp [e])
    have hcs : sep ∉ cs := fun e => h (List.mem_cons_of_mem _ e)
    simp [splitOn, hc, ih hcs]

theorem printf_p_not_mem (v : Nat) (x : Char) (hx : x = ' ' ∨ x = '\n') :
    x ∉ printf_p v := by
  unfold printf_p
  by_cases hv : v = 0
  · rw [if_pos hv]
    rcases hx with rfl | rfl <;> decide
  · rw [if_neg hv]
    intro hm
    rcases List.mem_cons.mp hm with h0 | hm
    · rcases hx with rfl | rfl <;> exact absurd h0 (by decide)
    rcases List.mem_cons.mp hm with h0 | hm
    · rcases hx with rfl | rfl <;> exact absurd h0 (by decide)
    obtain ⟨d, hd, hdc⟩ := itoa_chars 16 (by omega) (by omega) v x hm
    rcases hx with rfl | rfl
    · exact digitChar_ne_space d hd hdc.symm
    · exact digitChar_ne_newline d hd hdc.symm

theorem printf_ld_not_mem (t : Int) (x : Char) (hx : x = ' ' ∨ x = '\n') :
    x ∉ printf_ld t := by
  have key : ∀ n : Nat, x ∉ itoa 10 n := by
    intro n hm
    obtain ⟨d, hd, hdc⟩ := itoa_chars 10 (by omega) (by omega) n x hm
    rcases hx with rfl | rfl
    · exact digitChar_ne_space d hd hdc.symm
    · exact digitChar_ne_newline d hd hdc.symm
  unfold printf_ld
  by_cases ht : t < 0
  · rw [if_pos ht]
    intro hm
    rcases List.mem_cons.mp hm with h0 | hm
    · rcases hx with rfl | rfl <;> exact absurd h0 (by decide)
    · exact key _ hm
  · rw [if_neg ht]
    exact key _

theorem recordText_eq_body (a b : Nat) (flag : Char) (t : Int) :
    recordText a b flag t
      = (printf_p a ++ ' ' :: (printf_p b ++ ' ' :: flag :: ' ' :: printf_ld t)) ++ ['\n'] := by
  simp [recordText]

theorem fieldsOf_body (a b : Nat) (flag : Char) (t : Int) (hf : flag ≠ ' ') :
    fieldsOf (printf_p a ++ ' ' :: (printf_p b ++ ' ' :: flag :: ' ' :: printf_ld t))
      = [printf_p a, printf_p b, [flag], printf_ld t] := by
  unfold fieldsOf
  rw [splitOn_append_sep _ _ _ (printf_p_not_mem a ' ' (Or.inl rfl)),
    splitOn_append_sep _ _ _ (printf_p_not_mem b ' ' (Or.inl rfl))]
  have h3 : splitOn ' ' (flag :: ' ' :: printf_ld t) = [flag] :: splitOn ' ' (printf_ld t) :=
    splitOn_append_sep ' ' [flag] (printf_ld t) (by simpa using hf.symm)
  rw [h3, splitOn_no_sep _ _ (printf_ld_not_mem t ' ' (Or.inl rfl))]

theorem fieldsOf_recordText (a b : Nat) (flag : Char) (t : Int) (hf : flag ≠ ' ') :
    fieldsOf (recordText a b flag t)
      = [printf_p a, printf_p b, [flag], printf_ld t ++ ['\n']] := by
  unfold fieldsOf recordText
  rw [splitOn_append_sep _ _ _ (printf_p_not_mem a ' ' (Or.inl rfl)),
    splitOn_append_sep _ _ _ (printf_p_not_mem b ' ' (Or.inl rfl))]
  have h3 : splitOn ' ' (flag :: ' ' :: (printf_ld t ++ ['\n']))
      = [flag] :: splitOn ' ' (printf_ld t ++ ['\n']) :=
    splitOn_append_sep ' ' [flag] (printf_ld t ++ ['\n']) (by simpa using hf.symm)
  rw [h3, splitOn_no_sep]
  intro hm
  rcases List.mem_append.mp hm with h | h
  · exact printf_ld_not_mem t ' ' (Or.inl rfl) h
  · exact absurd h (by decide)

theorem newline_not_mem_body (a b : Nat) (flag : Char) (t : Int) (hf : flag ≠ '\n') :
    '\n' ∉ printf_p a ++ ' ' :: (printf_p b ++ ' ' :: flag :: ' ' :: printf_ld t) := by
  have ha := printf_p_not_mem a '\n' (Or.inr rfl)
  have hb := printf_p_not_mem b '\n' (Or.inr rfl)
  have ht := printf_ld_not_mem t '\n' (Or.inr rfl)
  have hs : ('\n' : Char) ≠ ' ' := by decide
  simp only [List.mem_append, List.mem_cons, not_or]
  exact ⟨ha, hs, hb, hs, hf.symm, hs, ht⟩

/-- Reading a record line back under the documented layout, for non-zero
offsets. -/
theorem parseLine_recordText (a b : Nat) (flag : Char) (t : Int) (d : Direction)
    (ha : a ≠ 0) (hb : b ≠ 0) (hd : parseDirection [flag] = some d) (hf : flag ≠ ' ') :
    parseLine (recordText a b flag t)
      = some { callee_offset := a, call_site_offset := b, direction := d, timestamp := t } := by
  unfold parseLine
  rw [recordText_eq_body, List.getLast?_concat, if_pos rfl, List.dropLast_concat,
    fieldsOf_body a b flag t hf]
  simp only [parseHex_printf_p a ha, parseHex_printf_p b hb, hd, parseDec_printf_ld]

/-! ## Auxiliary lemmas: the hooks on an open stream -/

theorem runHook_eq (ld : Loader) (st : Proc) (c : Call) :
    ∃ flag, (flag = 'E' ∨ flag = 'X') ∧ parseDirection [flag] = some c.hook.direction ∧
      runHook ld st c = fprint_dlinfo ld c.clock st c.this_fn c.call_site flag := by
  cases hh : c.hook with
  | enter => exact ⟨'E', Or.inl rfl, by decide, by simp [runHook, hh, __cyg_profile_func_enter]⟩
  | exit => exact ⟨'X', Or.inr rfl, by decide, by simp [runHook, hh, __cyg_profile_func_exit]⟩

theorem runHook_active (ld : Loader) (st : Proc) (fp : FILE) (c : Call)
    (h : st.finstrument_fp = some fp) :
    ∃ flag, (flag = 'E' ∨ flag = 'X') ∧ parseDirection [flag] = some c.hook.direction ∧
      runHook ld st c = some { finstrument_fp := some { data := fp.data ++
        (recordText (ptr_sub c.this_fn (dladdr ld c.this_fn Dl_info.zero).2.dli_fbase)
          (ptr_sub c.call_site (dladdr ld c.this_fn Dl_info.zero).2.dli_fbase)
          flag c.clock.tv_nsec) }, stderr := st.stderr } := by
  obtain ⟨flag, hf, hd, he⟩ := runHook_eq ld st c
  refine ⟨flag, hf, hd, ?_⟩
  rw [he, fprint_dlinfo_active ld c.clock st fp c.this_fn c.call_site flag h]
  rfl

theorem flag_ne_space (flag : Char) (h : flag = 'E' ∨ flag = 'X') : flag ≠ ' ' := by
  rcases h with rfl | rfl <;> decide

theorem flag_ne_newline (flag : Char) (h : flag = 'E' ∨ flag = 'X') : flag ≠ '\n' := by
  rcases h with rfl | rfl <;> decide

theorem lineOf_eq (ld : Loader) (c : Call) :
    ∃ flag, (flag = 'E' ∨ flag = 'X') ∧ parseDirection [flag] = some c.hook.direction ∧
      lineOf ld c =
        recordText (ptr_sub c.this_fn (dladdr ld c.this_fn Dl_info.zero).2.dli_fbase)
          (ptr_sub c.call_site (dladdr ld c.this_fn Dl_info.zero).2.dli_fbase)
          flag c.clock.tv_nsec := by
  obtain ⟨flag, hf, hd, he⟩ := runHook_active ld freshActive { data := [] } c rfl
  refine ⟨flag, hf, hd, ?_⟩
  unfold lineOf
  rw [he]
  simp [storeOf]

theorem runHook_lineOf (ld : Loader) (st : Proc) (fp : FILE) (c : Call)
    (h : st.finstrument_fp = some fp) :
    runHook ld st c
      = some { finstrument_fp := some { data := fp.data ++ lineOf ld c },
               stderr := st.stderr } := by
  cases hh : c.hook with
  | enter =>
    simp only [lineOf, runHook, hh, __cyg_profile_func_enter]
    rw [fprint_dlinfo_active ld c.clock st fp _ _ _ h,
      fprint_dlinfo_active ld c.clock freshActive { data := [] } _ _ _ rfl]
    simp [storeOf]
  | exit =>
    simp only [lineOf, runHook, hh, __cyg_profile_func_exit]
    rw [fprint_dlinfo_active ld c.clock st fp _ _ _ h,
      fprint_dlinfo_active ld c.clock freshActive { data := [] } _ _ _ rfl]
    simp [storeOf]

theorem runCalls_lines (ld : Loader) (calls : List Call) (st : Proc) (fp : FILE)
    (h : st.finstrument_fp = some fp) :
    runCalls ld st calls
      = some { finstrument_fp := some { data := fp.data ++ (calls.map (lineOf ld)).flatten },
               stderr := st.stderr } := by
  induction calls generalizing st fp with
  | nil =>
    cases st
    simp only at h
    simp [runCalls, h]
  | cons c cs ih =>
    simp only [runCalls, runHook_lineOf ld st fp c h, Option.some_bind]
    rw [ih _ { data := fp.data ++ lineOf ld c } rfl]
    simp

theorem head_fieldsOf_append (p rest : List Char) (h : ' ' ∉ p) :
    (fieldsOf (p ++ ' ' :: rest)).head? = some p := by
  unfold fieldsOf
  rw [splitOn_append_sep _ _ _ h]
  rfl

/-! ## Address resolution (claims C1, C2, C3) -/

/-- C1 (evaluation at the failing input): the callee `0x401000` lies in the
module based at `0x400000` and the call site `0x7f0000001050` lies in the
module based at `0x7f0000000000`, at offset `0x1050`.  The line the enter hook
writes carries `0x7effffc01050` as its call-site field, which is the call site
minus the callee's module base, and not the rendering of `0x1050`. -/
theorem call_site_resolved_against_callee_module :
    sampleLoader 0x401000 = some 0x400000 ∧
    sampleLoader 0x7f0000001050 = some 0x7f0000000000 ∧
    __cyg_profile_func_enter sampleLoader ⟨0, 7⟩ freshActive 0x401000 0x7f0000001050
      = some { finstrument_fp := some { data := "0x1000 0x7effffc01050 E 7\n".toList },
               stderr := [] } ∧
    (fieldsOf "0x1000 0x7effffc01050 E 7\n".toList).get? 1
      = some (printf_p (ptr_sub 0x7f0000001050 0x400000)) ∧
    (fieldsOf "0x1000 0x7effffc01050 E 7\n".toList).get? 1
      ≠ some (printf_p (0x7f0000001050 - 0x7f0000000000)) := by
  decide

/-- C2: when the callee address lies in a loaded module with base `b` at
offset `k`, the hook (enter or exit, any call site, any clock reading) appends
a line whose first field is the `%p` text of exactly `k`; for `k ≠ 0` that
field reads back as the hexadecimal number `k`. -/
theorem callee_offset_is_module_relative (ld : Loader) (st : Proc) (fp : FILE) (c : Call)
    (b k : Nat) (hact : st.finstrument_fp = some fp) (hmod : ld c.this_fn = some b)
    (hk : c.this_fn = b + k) (hptr : c.this_fn < 2 ^ 64) :
    ∃ line,
      runHook ld st c
        = some { finstrument_fp := some { data := fp.data ++ line }, stderr := st.stderr } ∧
      (fieldsOf line).head? = some (printf_p k) ∧
      (k ≠ 0 → (fieldsOf line).head?.bind parseHex = some k) := by
  obtain ⟨flag, _, _, he⟩ := runHook_active ld st fp c hact
  have hoff : ptr_sub c.this_fn (dladdr ld c.this_fn Dl_info.zero).2.dli_fbase = k := by
    rw [dladdr_some ld _ b _ hmod, hk]
    exact ptr_sub_add b k (by omega)
  rw [hoff] at he
  refine ⟨_, he, ?_, ?_⟩
  · exact head_fieldsOf_append _ _ (printf_p_not_mem k ' ' (Or.inl rfl))
  · intro hk0
    unfold recordText
    rw [head_fieldsOf_append _ _ (printf_p_not_mem k ' ' (Or.inl rfl))]
    exact parseHex_printf_p k hk0

/-- Instance of C2: an exit of the callee at `0x401000` (module base `0x400000`, offset `0x1000`) called from another module. -/
theorem callee_offset_is_module_relative_witness :
    ∃ line,
      runHook sampleLoader freshActive ⟨Hook.exit, 0x401000, 0x7f0000001050, ⟨5, 42⟩⟩
        = some { finstrument_fp := some { data := [] ++ line }, stderr := [] } ∧
      (fieldsOf line).head? = some (printf_p 0x1000) ∧
      (0x1000 ≠ 0 → (fieldsOf line).head?.bind parseHex = some 0x1000) :=
  callee_offset_is_module_relative sampleLoader freshActive { data := [] }
    ⟨Hook.exit, 0x401000, 0x7f0000001050, ⟨5, 42⟩⟩ 0x400000 0x1000
    (by decide) (by decide) (by decide) (by decide)

/-- C3: when the module lookup for the callee fails, `dladdr` reports failure
and leaves the zeroed `Dl_info` untouched, so the base used is `0`; the hook
still appends exactly one newline-terminated line, and the first field of
that line is the `%p` text of the raw callee address. -/
theorem unresolved_callee_recorded_raw (ld : Loader) (st : Proc) (fp : FILE) (c : Call)
    (hact : st.finstrument_fp = some fp) (hfail : ld c.this_fn = none)
    (hptr : c.this_fn < 2 ^ 64) :
    dladdr ld c.this_fn Dl_info.zero = (0, Dl_info.zero) ∧
    (dladdr ld c.this_fn Dl_info.zero).2.dli_fbase = 0 ∧
    ptr_sub c.this_fn (dladdr ld c.this_fn Dl_info.zero).2.dli_fbase = c.this_fn ∧
    ∃ body,
      runHook ld st c
        = some { finstrument_fp := some { data := fp.data ++ (body ++ ['\n']) },
                 stderr := st.stderr } ∧
      '\n' ∉ body ∧
      (fieldsOf body).head? = some (printf_p c.this_fn) := by
  have hd : dladdr ld c.this_fn Dl_info.zero = (0, Dl_info.zero) := dladdr_none ld _ _ hfail
  obtain ⟨flag, hf, _, he⟩ := runHook_active ld st fp c hact
  rw [hd] at he
  have hz : ptr_sub c.this_fn Dl_info.zero.dli_fbase = c.this_fn := ptr_sub_zero _ hptr
  simp only [hz] at he
  rw [recordText_eq_body] at he
  refine ⟨hd, by rw [hd]; rfl, by rw [hd]; exact hz, _, he, ?_, ?_⟩
  · exact newline_not_mem_body _ _ _ _ (flag_ne_newline flag hf)
  · exact head_fieldsOf_append _ _ (printf_p_not_mem _ ' ' (Or.inl rfl))

/-- Instance of C3: an enter of a callee at `0x1234`, an address in no module of the sample map. -/
theorem unresolved_callee_recorded_raw_witness :
    dladdr sampleLoader 0x1234 Dl_info.zero = (0, Dl_info.zero) ∧
    (dladdr sampleLoader 0x1234 Dl_info.zero).2.dli_fbase = 0 ∧
    ptr_sub 0x1234 (dladdr sampleLoader 0x1234 Dl_info.zero).2.dli_fbase = 0x1234 ∧
    ∃ body,
      runHook sampleLoader freshActive ⟨Hook.enter, 0x1234, 0x401050, ⟨5, 42⟩⟩
        = some { finstrument_fp := some { data := [] ++ (body ++ ['\n']) },
                 stderr := [] } ∧
      '\n' ∉ body ∧
      (fieldsOf body).head? = some (printf_p 0x1234) :=
  unresolved_callee_recorded_raw sampleLoader freshActive { data := [] }
    ⟨Hook.enter, 0x1234, 0x401050, ⟨5, 42⟩⟩ (by decide) (by decide) (by decide)

/-! ## Line layout (claims C4, C5, C9) -/

/-- C5 (counterexample): an enter whose callee address is the module base
itself has callee offset `0`; the line it appends is `(nil) 0x50 E 7`, whose
first field is not hexadecimal, and reading the line under the documented
layout fails. -/
theorem zero_offset_line_does_not_parse :
    sampleLoader 0x400000 = some 0x400000 ∧
    ptr_sub 0x400000 0x400000 = 0 ∧
    __cyg_profile_func_enter sampleLoader ⟨0, 7⟩ freshActive 0x400000 0x400050
      = some { finstrument_fp := some { data := "(nil) 0x50 E 7\n".toList },
               stderr := [] } ∧
    parseLine "(nil) 0x50 E 7\n".toList = none := by
  decide

/-- C5 (amended): for every record whose callee offset and call-site offset
are both non-zero (either hook, every clock reading), reading the appended
line under the layout `<hex> <hex> <E|X> <decimal>` plus newline succeeds and
yields exactly the callee offset, call-site offset, direction and timestamp
value that were written. -/
theorem line_round_trip (ld : Loader) (st : Proc) (fp : FILE) (c : Call)
    (hact : st.finstrument_fp = some fp)
    (h1 : ptr_sub c.this_fn (dladdr ld c.this_fn Dl_info.zero).2.dli_fbase ≠ 0)
    (h2 : ptr_sub c.call_site (dladdr ld c.this_fn Dl_info.zero).2.dli_fbase ≠ 0) :
    ∃ line,
      runHook ld st c
        = some { finstrument_fp := some { data := fp.data ++ line }, stderr := st.stderr } ∧
      parseLine line
        = some { callee_offset :=
                   ptr_sub c.this_fn (dladdr ld c.this_fn Dl_info.zero).2.dli_fbase,
                 call_site_offset :=
                   ptr_sub c.call_site (dladdr ld c.this_fn Dl_info.zero).2.dli_fbase,
                 direction := c.hook.direction,
                 timestamp := c.clock.tv_nsec } := by
  obtain ⟨flag, hf, hd, he⟩ := runHook_active ld st fp c hact
  exact ⟨_, he, parseLine_recordText _ _ flag _ _ h1 h2 hd (flag_ne_space flag hf)⟩

/-- Instance of amended C5: an exit with offsets `0x1000` and `0x1050`. -/
theorem line_round_trip_witness :
    ∃ line,
      runHook sampleLoader freshActive ⟨Hook.exit, 0x401000, 0x401050, ⟨3, 999999999⟩⟩
        = some { finstrument_fp := some { data := [] ++ line }, stderr := [] } ∧
      parseLine line
        = some { callee_offset :=
                   ptr_sub 0x401000 (dladdr sampleLoader 0x401000 Dl_info.zero).2.dli_fbase,
                 call_site_offset :=
                   ptr_sub 0x401050 (dladdr sampleLoader 0x401000 Dl_info.zero).2.dli_fbase,
                 direction := Hook.exit.direction,
                 timestamp := 999999999 } :=
  line_round_trip sampleLoader freshActive { data := [] }
    ⟨Hook.exit, 0x401000, 0x401050, ⟨3, 999999999⟩⟩ (by decide) (by decide) (by decide)

/-- C9: on an open stream, for every pair of addresses, module map and clock
reading, the enter hook appends a line whose third field is `E` and the exit
hook appends a line whose third field is `X`, and the two lines have the same
first, second and fourth fields. -/
theorem direction_encoding (ld : Loader) (clock : timespec) (st : Proc) (fp : FILE)
    (this_fn call_site : Nat) (hact : st.finstrument_fp = some fp) :
    ∃ lineE lineX f1 f2 f4,
      __cyg_profile_func_enter ld clock st this_fn call_site
        = some { finstrument_fp := some { data := fp.data ++ lineE }, stderr := st.stderr } ∧
      __cyg_profile_func_exit ld clock st this_fn call_site
        = some { finstrument_fp := some { data := fp.data ++ lineX }, stderr := st.stderr } ∧
      fieldsOf lineE = [f1, f2, ['E'], f4] ∧
      fieldsOf lineX = [f1, f2, ['X'], f4] := by
  refine ⟨_, _, _, _, _,
    fprint_dlinfo_active ld clock st fp this_fn call_site 'E' hact,
    fprint_dlinfo_active ld clock st fp this_fn call_site 'X' hact,
    fieldsOf_recordText _ _ 'E' _ (by decide),
    fieldsOf_recordText _ _ 'X' _ (by decide)⟩

/-- Instance of C9: both hooks on the scenario addresses with one clock reading. -/
theorem direction_encoding_witness :
    ∃ lineE lineX f1 f2 f4,
      __cyg_profile_func_enter sampleLoader ⟨3, 12⟩ freshActive 0x401000 0x401050
        = some { finstrument_fp := some { data := [] ++ lineE }, stderr := [] } ∧
      __cyg_profile_func_exit sampleLoader ⟨3, 12⟩ freshActive 0x401000 0x401050
        = some { finstrument_fp := some { data := [] ++ lineX }, stderr := [] } ∧
      fieldsOf lineE = [f1, f2, ['E'], f4] ∧
      fieldsOf lineX = [f1, f2, ['X'], f4] :=
  direction_encoding sampleLoader ⟨3, 12⟩ freshActive { data := [] } 0x401000 0x401050
    (by decide)

/-! ## Timestamps (claim C6) -/

/-- C6 (evaluation at the failing input): the enter reads the clock at
`0 s 999999999 ns` and the exit reads it one nanosecond later, at
`1 s 0 ns`.  The enter line carries the timestamp field `999999999` and the
exit line carries `0`: the later record has the smaller field, because only
`tv_nsec` is written. -/
theorem timestamp_field_drops_seconds :
    timespec.toNanos ⟨0, 999999999⟩ < timespec.toNanos ⟨1, 0⟩ ∧
    __cyg_profile_func_enter sampleLoader ⟨0, 999999999⟩ freshActive 0x401000 0x401050
      = some { finstrument_fp := some { data := "0x1000 0x1050 E 999999999\n".toList },
               stderr := [] } ∧
    __cyg_profile_func_exit sampleLoader ⟨1, 0⟩ freshActive 0x401000 0x401050
      = some { finstrument_fp := some { data := "0x1000 0x1050 X 0\n".toList },
               stderr := [] } ∧
    (parseLine "0x1000 0x1050 E 999999999\n".toList).map TraceEvent.timestamp
      = some 999999999 ∧
    (parseLine "0x1000 0x1050 X 0\n".toList).map TraceEvent.timestamp = some 0 := by
  decide

/-! ## Append order (claim C7) -/

/-- C7: on an open stream, a sequence of hook calls from one thread leaves the
store equal to its earlier content followed by the lines of the calls in call
order, and the text of each call is one line: it ends in a newline and holds
no other newline. -/
theorem append_order (ld : Loader) (st : Proc) (fp : FILE) (calls : List Call)
    (hact : st.finstrument_fp = some fp) :
    runCalls ld st calls
      = some { finstrument_fp := some { data := fp.data ++ (calls.map (lineOf ld)).flatten },
               stderr := st.stderr } ∧
    ∀ c ∈ calls, ∃ body, lineOf ld c = body ++ ['\n'] ∧ '\n' ∉ body := by
  refine ⟨runCalls_lines ld calls st fp hact, ?_⟩
  intro c _
  obtain ⟨flag, hf, _, he⟩ := lineOf_eq ld c
  rw [he, recordText_eq_body]
  exact ⟨_, rfl, newline_not_mem_body _ _ _ _ (flag_ne_newline flag hf)⟩

/-- Instance of C7: enter-A, enter-B, exit-B, exit-A on a store that already holds one line. -/
theorem append_order_witness :
    runCalls sampleLoader
        { finstrument_fp := some { data := "0x1 0x2 E 3\n".toList }, stderr := [] }
        [⟨Hook.enter, 0x401000, 0x401050, ⟨0, 1⟩⟩, ⟨Hook.enter, 0x402000, 0x401010, ⟨0, 2⟩⟩,
         ⟨Hook.exit, 0x402000, 0x401010, ⟨0, 3⟩⟩, ⟨Hook.exit, 0x401000, 0x401050, ⟨0, 4⟩⟩]
      = some { finstrument_fp := some { data := "0x1 0x2 E 3\n".toList ++
          ([⟨Hook.enter, 0x401000, 0x401050, ⟨0, 1⟩⟩, ⟨Hook.enter, 0x402000, 0x401010, ⟨0, 2⟩⟩,
            ⟨Hook.exit, 0x402000, 0x401010, ⟨0, 3⟩⟩, ⟨Hook.exit, 0x401000, 0x401050, ⟨0, 4⟩⟩].map
              (lineOf sampleLoader)).flatten },
               stderr := [] } ∧
    ([⟨Hook.enter, 0x401000, 0x401050, ⟨0, 1⟩⟩, ⟨Hook.enter, 0x402000, 0x401010, ⟨0, 2⟩⟩,
      ⟨Hook.exit, 0x402000, 0x401010, ⟨0, 3⟩⟩, ⟨Hook.exit, 0x401000, 0x401050, ⟨0, 4⟩⟩].map
        (lineOf sampleLoader)).flatten
      = ("0x1000 0x1050 E 1\n" ++ "0x2000 0x1010 E 2\n" ++ "0x2000 0x1010 X 3\n"
          ++ "0x1000 0x1050 X 4\n").toList :=
  ⟨(append_order sampleLoader
      { finstrument_fp := some { data := "0x1 0x2 E 3\n".toList }, stderr := [] }
      { data := "0x1 0x2 E 3\n".toList }
      [⟨Hook.enter, 0x401000, 0x401050, ⟨0, 1⟩⟩, ⟨Hook.enter, 0x402000, 0x401010, ⟨0, 2⟩⟩,
       ⟨Hook.exit, 0x402000, 0x401010, ⟨0, 3⟩⟩, ⟨Hook.exit, 0x401000, 0x401050, ⟨0, 4⟩⟩]
      (by decide)).1, by decide⟩

/-! ## Lifecycle (claim C8) -/

/-- C8 (evaluation at the failing input): on a file system that refuses
`finstrument.txt`, `main_constructor` appends the diagnostic to standard error
and calls `exit(EXIT_FAILURE)`; `exit` runs `main_destructor`, which calls
`fclose` on the `NULL` stream, so the outcome is an undefined call and not a
completed exit with a status.  No input makes `main_constructor` end in a
completed exit; when the store can be opened it returns with the stream open
and empty and standard error untouched. -/
theorem failed_open_exit_reaches_fclose_null :
    fopen (fun _ => false) "finstrument.txt" = none ∧
    main_constructor (fun _ => false) { finstrument_fp := none, stderr := [] }
      = Outcome.undefined
          { finstrument_fp := none, stderr := "Fail to create finstrument.txt.\n".toList } ∧
    main_destructor
        { finstrument_fp := none, stderr := "Fail to create finstrument.txt.\n".toList }
      = none ∧
    (∀ (writable : String → Bool) (st : Proc) (status : Nat) (st1 : Proc),
      main_constructor writable st ≠ Outcome.exited status st1) ∧
    (∀ (writable : String → Bool) (st : Proc), fopen writable "finstrument.txt" ≠ none →
      main_constructor writable st
        = Outcome.returned { finstrument_fp := some { data := [] }, stderr := st.stderr }) := by
  refine ⟨by decide, by decide, by decide, ?_, ?_⟩
  · intro writable st status st1
    cases hw : writable "finstrument.txt" with
    | false =>
      have hm : main_constructor writable st = Outcome.undefined
          { finstrument_fp := none,
            stderr := st.stderr ++ "Fail to create finstrument.txt.\n".toList } := by
        simp only [main_constructor, fopen, hw]
        rfl
      rw [hm]
      exact fun h => Outcome.noConfusion h
    | true =>
      have hm : main_constructor writable st = Outcome.returned
          { finstrument_fp := some { data := [] }, stderr := st.stderr } := by
        simp only [main_constructor, fopen, hw]
        rfl
      rw [hm]
      exact fun h => Outcome.noConfusion h
  · intro writable st hopen
    cases hw : writable "finstrument.txt" with
    | false => exact absurd (by simp [fopen, hw]) hopen
    | true =>
      simp only [main_constructor, fopen, hw]
      rfl

end Injection
